import Mathlib

/-!
Verification of the data-ingestion-and-storage pipeline of the
QuantTradingOS data-ingestion service.

The embedding models, faithfully to the Python source:
* `db/client.py` — the store writers `store_prices` (SQL upsert,
  `ON CONFLICT (timestamp, symbol) DO UPDATE SET` over all value columns),
  `store_news` and `store_insider` (SQL `ON CONFLICT DO NOTHING` on the
  dedup key), together with the per-row normalisation each performs.
* `ingestion/price_fetcher.py` — `fetch_and_store_prices` (bulk download,
  single-symbol vs multi-symbol decomposition, per-symbol exception
  handling) and `fetch_latest_prices`.
* `ingestion/news_fetcher.py` / `ingestion/insider_fetcher.py` —
  `get_finnhub_key`, `fetch_company_news` / `fetch_insider_transactions`
  and the per-symbol fetch-and-store loops.
* `ingestion/scheduler.py` — the shutdown call performed by `main`.

Database tables are modelled as lists of rows; the relational engine's
documented conflict semantics (upsert / insert-or-ignore) is modelled
explicitly.  External effects (the HTTP provider, engine/transaction
failures) are oracles passed as function arguments; an `Except` result or
a failure oracle models a raised Python exception, and pattern matching on
it models the source's `try/except` blocks.  pandas timestamps are
integers, float values are rationals.
-/

namespace DataIngestion

/-- Timestamps (pandas datetimes / dates) are modelled as integers. -/
abbrev Timestamp := Int

section StorePrimitives

variable {α : Type} {κ : Type} [DecidableEq κ]

/-- Does the table hold a row with the given key?  (The engine's unique-key
probe that decides conflict handling.) -/
def hasK (key : α → κ) (db : List α) (k : κ) : Bool :=
  db.any fun x => decide (key x = k)

/-- One upserted row: SQL `INSERT .. ON CONFLICT (key) DO UPDATE SET` over
all value columns replaces the conflicting row in place, else appends. -/
def upsertRow (key : α → κ) (db : List α) (r : α) : List α :=
  if hasK key db (key r) then db.map fun x => if key x = key r then r else x
  else db ++ [r]

/-- A batch of upserted rows, in batch order. -/
def upsertAll (key : α → κ) : List α → List α → List α
  | db, [] => db
  | db, r :: rs => upsertAll key (upsertRow key db r) rs

/-- SQL `INSERT .. ON CONFLICT DO NOTHING` over a batch: the table after the
batch and the statement rowcount (rows actually inserted, duplicates
excluded). -/
def insertIgnoreAll (key : α → κ) : List α → List α → List α × Nat
  | db, [] => (db, 0)
  | db, r :: rs =>
    if hasK key db (key r) then insertIgnoreAll key db rs
    else
      let p := insertIgnoreAll key (db ++ [r]) rs
      (p.1, p.2 + 1)

/-- The last record of a batch carrying a given key. -/
def lastWith (key : α → κ) (l : List α) (k : κ) : Option α :=
  (l.filter fun a => decide (key a = k)).getLast?

/-- Replace a row by the last record of the batch with the same key, if
any.  Used only to state and prove properties of `upsertAll`. -/
def applyLast (key : α → κ) (l : List α) (x : α) : α :=
  (lastWith key l (key x)).getD x

end StorePrimitives

/-- First-of-two-options, modelling Python's `d.get(k1, d.get(k2))`. -/
def orO {α : Type} : Option α → Option α → Option α
  | some x, _ => some x
  | none, b => b

/-! ## Canonical price bars and `store_prices` (db/client.py) -/

/-- A row of the `prices` table. -/
structure PriceRec where
  timestamp : Timestamp
  symbol : String
  open_ : Rat
  high : Rat
  low : Rat
  close : Rat
  volume : Int
deriving DecidableEq, Repr

/-- The prices conflict target: the table is unique on (timestamp, symbol). -/
def priceKey (r : PriceRec) : Timestamp × String := (r.timestamp, r.symbol)

/-- A pandas DataFrame with a datetime index: the index and the named
columns, each column a list of values aligned with the index. -/
structure DataFrame where
  index : List Timestamp
  cols : List (String × List Rat)
deriving DecidableEq, Repr

/-- pandas `df.empty`: true when either axis has length zero. -/
def DataFrame.isEmpty (df : DataFrame) : Bool := df.index.isEmpty || df.cols.isEmpty

/-- The value of column `c` at positional row `i`, if the column exists. -/
def DataFrame.cell (df : DataFrame) (i : Nat) (c : String) : Option Rat :=
  (df.cols.lookup c).bind fun vs => vs[i]?

/-- Python `row.get(lo, row.get(hi, 0))`: the lowercase-keyed cell, else the
capitalised-keyed cell, else 0. -/
def rowVal (df : DataFrame) (i : Nat) (lo hi : String) : Rat :=
  (df.cell i lo).getD ((df.cell i hi).getD 0)

/-- Python `int()`: truncation toward zero. -/
def pyInt (q : Rat) : Int := if 0 ≤ q then q.floor else -((-q).floor)

/-- The record `store_prices` builds from positional row `i` (with index
entry `ts`) of the DataFrame: each OHLC field falls back from the
lowercase key to the capitalised key to 0; volume additionally through
`int()`. -/
def priceRecordAt (symbol : String) (df : DataFrame) (i : Nat) (ts : Timestamp) : PriceRec :=
  { timestamp := ts
    symbol := symbol
    open_ := rowVal df i "open" "Open"
    high := rowVal df i "high" "High"
    low := rowVal df i "low" "Low"
    close := rowVal df i "close" "Close"
    volume := pyInt (rowVal df i "volume" "Volume") }

/-- The batch of records `store_prices` builds by iterating the rows. -/
def priceRecords (symbol : String) (df : DataFrame) : List PriceRec :=
  df.index.enum.map fun p => priceRecordAt symbol df p.1 p.2

abbrev PriceDB := List PriceRec

/-- `store_prices(engine, symbol, df)`: empty frame is a no-op returning 0;
otherwise build the records and upsert them in one transaction, returning
the statement rowcount (every row of the batch is inserted or updated). -/
def store_prices (db : PriceDB) (symbol : String) (df : DataFrame) : PriceDB × Nat :=
  if df.isEmpty then (db, 0)
  else
    let records := priceRecords symbol df
    if records.isEmpty then (db, 0)
    else (upsertAll priceKey db records, records.length)

/-! ## News items and `store_news` (db/client.py) -/

/-- A provider news payload entry: the dict keys `store_news` probes, each
possibly absent. -/
structure NewsItem where
  datetime : Option Timestamp
  timestamp : Option Timestamp
  headline : Option String
  title : Option String
  summary : Option String
  description : Option String
  source : Option String
  url : Option String
deriving DecidableEq, Repr

/-- A row of the `news` table (the store-assigned id is not modelled). -/
structure NewsRec where
  symbol : String
  timestamp : Option Timestamp
  headline : String
  summary : Option String
  source : String
  url : Option String
deriving DecidableEq, Repr

/-- The news dedup key: (symbol, timestamp, headline). -/
def newsKey (r : NewsRec) : String × Option Timestamp × String :=
  (r.symbol, r.timestamp, r.headline)

/-- The record `store_news` builds from one payload item. -/
def newsRecordOf (symbol : String) (item : NewsItem) : NewsRec :=
  { symbol := symbol
    timestamp := orO item.datetime item.timestamp
    headline := (orO item.headline item.title).getD ""
    summary := orO item.summary item.description
    source := item.source.getD "finnhub"
    url := item.url }

abbrev NewsDB := List NewsRec

/-- `store_news(engine, symbol, news_items)`: empty batch is a no-op
returning 0; otherwise insert-or-ignore the normalised records in one
transaction, returning the number actually inserted. -/
def store_news (db : NewsDB) (symbol : String) (items : List NewsItem) : NewsDB × Nat :=
  if items.isEmpty then (db, 0)
  else insertIgnoreAll newsKey db (items.map (newsRecordOf symbol))

/-! ## Insider transactions and `store_insider` (db/client.py) -/

/-- A provider insider-transaction payload entry: the dict keys
`store_insider` probes (`typ` stands for the payload key "type"). -/
structure InsiderTxn where
  transactionDate : Option Timestamp
  date : Option Timestamp
  transactionType : Option String
  typ : Option String
  shares : Option Rat
  price : Option Rat
  value : Option Rat
  name : Option String
  insiderName : Option String
deriving DecidableEq, Repr

/-- A row of the `insider_transactions` table (id not modelled). -/
structure InsiderRec where
  symbol : String
  transaction_date : Option Timestamp
  transaction_type : String
  shares : Rat
  price : Option Rat
  value : Option Rat
  insider_name : Option String
  source : String
deriving DecidableEq, Repr

/-- The insider dedup key:
(symbol, transaction_date, transaction_type, insider_name). -/
def insiderKey (r : InsiderRec) : String × Option Timestamp × String × Option String :=
  (r.symbol, r.transaction_date, r.transaction_type, r.insider_name)

/-- The record `store_insider` builds from one transaction dict.  The
price and value columns mirror
`float(txn.get("price", 0)) if txn.get("price") else None`: a missing
key or a falsy (zero) value both store NULL. -/
def insiderRecordOf (symbol : String) (txn : InsiderTxn) : InsiderRec :=
  { symbol := symbol
    transaction_date := orO txn.transactionDate txn.date
    transaction_type := (orO txn.transactionType txn.typ).getD ""
    shares := txn.shares.getD 0
    price := match txn.price with
      | some p => if p = 0 then none else some p
      | none => none
    value := match txn.value with
      | some v => if v = 0 then none else some v
      | none => none
    insider_name := orO txn.name txn.insiderName
    source := "finnhub" }

abbrev InsiderDB := List InsiderRec

/-- `store_insider(engine, symbol, transactions)`: empty batch is a no-op
returning 0; otherwise insert-or-ignore the normalised records. -/
def store_insider (db : InsiderDB) (symbol : String) (txns : List InsiderTxn) :
    InsiderDB × Nat :=
  if txns.isEmpty then (db, 0)
  else insertIgnoreAll insiderKey db (txns.map (insiderRecordOf symbol))

/-! ## Outcome maps

The fetchers accumulate a Python dict `results[symbol] = count`; it is
modelled as an association list with dict update semantics (update in
place when the key exists, else append). -/

/-- Python `results[s] = n` on a dict modelled as an association list. -/
def setR (res : List (String × Nat)) (s : String) (n : Nat) : List (String × Nat) :=
  if res.any fun p => decide (p.1 = s) then
    res.map fun p => if p.1 = s then (s, n) else p
  else res ++ [(s, n)]

/-- The all-zero outcome map over a symbol list. -/
def zeroResults (symbols : List String) : List (String × Nat) :=
  symbols.foldl (fun r s => setR r s 0) []

/-- Python `results.get(s)` on the outcome dict: the entry for a symbol,
`none` when the dict holds no entry for it. -/
def lookupR : List (String × Nat) → String → Option Nat
  | [], _ => none
  | p :: res, t => if p.1 = t then some p.2 else lookupR res t

/-! ## Price fetcher (ingestion/price_fetcher.py)

`yf.download` is an oracle from (tickers, period, interval) to an optional
result; `none` models the download raising.  Since yfinance shapes its
column axis by ticker count (flat `Open`/`High`/… columns for one ticker,
(`column`, ticker) pairs for several with `group_by="column"`), the oracle
result carries both views and the branch taken by the code (which branches
on `len(symbols)`) picks the matching one.  `dbFail s` models the engine
raising inside the store transaction for symbol `s` (the transaction rolls
back, leaving the table unchanged). -/

/-- A `yf.download` result. -/
structure DownloadResult where
  index : List Timestamp
  flatCols : List (String × List Rat)
  multiCols : List ((String × String) × List Rat)
deriving DecidableEq, Repr

/-- pandas `data.empty` on the view the code is about to use. -/
def DownloadResult.isEmptyFor (d : DownloadResult) (single : Bool) : Bool :=
  d.index.isEmpty || (if single then d.flatCols.isEmpty else d.multiCols.isEmpty)

/-- The multi-symbol decomposition: project the (`col`, symbol) columns of
the bulk frame, lowercase the names (`df[col.lower()] = data[(col, symbol)]`);
absent columns are simply not added. -/
def extractSymbolDf (data : DownloadResult) (symbol : String) : DataFrame :=
  { index := data.index
    cols := ["Open", "High", "Low", "Close", "Volume"].filterMap fun c =>
      (data.multiCols.lookup (c, symbol)).map fun vs => (c.toLower, vs) }

/-- The single-symbol view with string column names lowercased. -/
def singleDf (data : DownloadResult) : DataFrame :=
  { index := data.index
    cols := data.flatCols.map fun p => (p.1.toLower, p.2) }

/-- One iteration of the multi-symbol loop: build the symbol's frame; skip
it entirely when empty; otherwise store it, recording the count, or — when
the store raises — record 0 for the symbol (the inner `except`). -/
def priceStep (data : DownloadResult) (dbFail : String → Bool)
    (acc : PriceDB × List (String × Nat)) (symbol : String) :
    PriceDB × List (String × Nat) :=
  if (extractSymbolDf data symbol).isEmpty then acc
  else if dbFail symbol then (acc.1, setR acc.2 symbol 0)
  else ((store_prices acc.1 symbol (extractSymbolDf data symbol)).1,
    setR acc.2 symbol (store_prices acc.1 symbol (extractSymbolDf data symbol)).2)

/-- The multi-symbol loop of `fetch_and_store_prices`. -/
def pricesGo (data : DownloadResult) (dbFail : String → Bool) :
    PriceDB × List (String × Nat) → List String → PriceDB × List (String × Nat)
  | acc, [] => acc
  | acc, s :: ss => pricesGo data dbFail (priceStep data dbFail acc s) ss

/-- `fetch_and_store_prices(symbols, period, interval)`: empty symbol list
returns `{}`; a download that raises or comes back empty returns the
results accumulated so far (`{}`); one symbol takes the flat-column path
(a store exception there reaches the outer `except`, returning `{}`);
several symbols take the per-symbol decomposition loop. -/
def fetch_and_store_prices (dl : List String → String → String → Option DownloadResult)
    (dbFail : String → Bool) (db : PriceDB) (symbols : List String)
    (period interval : String) : PriceDB × List (String × Nat) :=
  if symbols.isEmpty then (db, [])
  else
    match dl symbols period interval with
    | none => (db, [])
    | some data =>
      if data.isEmptyFor (symbols.length == 1) then (db, [])
      else if symbols.length == 1 then
        let symbol := symbols.headD ""
        let df := singleDf data
        if !df.isEmpty && dbFail symbol then (db, [])
        else
          let r := store_prices db symbol df
          (r.1, [(symbol, r.2)])
      else pricesGo data dbFail (db, []) symbols

/-- `fetch_latest_prices(symbols)`: the same fetch primitive with a 1-day
period and 1-day interval. -/
def fetch_latest_prices (dl : List String → String → String → Option DownloadResult)
    (dbFail : String → Bool) (db : PriceDB) (symbols : List String) :
    PriceDB × List (String × Nat) :=
  fetch_and_store_prices dl dbFail db symbols "1d" "1d"

/-! ## News fetcher (ingestion/news_fetcher.py)

The process environment is an association list.  The HTTP round trip is an
oracle from (symbol, days_back) to an `Except`; an `error` models the
request/parse raising, which `fetch_company_news` catches itself. -/

abbrev Env := List (String × String)

/-- `get_finnhub_key()`: read FINNHUB_API_KEY; `if not key` raises
ValueError when the variable is unset or set to the empty string.
(The same function appears verbatim in news_fetcher.py and
insider_fetcher.py.) -/
def get_finnhub_key (env : Env) : Except String String :=
  match env.lookup "FINNHUB_API_KEY" with
  | none => .error "FINNHUB_API_KEY environment variable not set"
  | some k =>
    if k = "" then .error "FINNHUB_API_KEY environment variable not set"
    else .ok k

/-- `fetch_company_news(symbol, days_back)`: `get_finnhub_key()` runs
before the `try` block, so its ValueError propagates to the caller; the
HTTP request and parsing sit inside `try/except`, so their failure is
caught and an empty list returned. -/
def fetch_company_news (env : Env)
    (http : String → Nat → Except String (List NewsItem))
    (symbol : String) (daysBack : Nat) : Except String (List NewsItem) :=
  match get_finnhub_key env with
  | .error e => .error e
  | .ok _ =>
    match http symbol daysBack with
    | .ok items => .ok items
    | .error _ => .ok []

/-- One iteration of the per-symbol loop in `fetch_and_store_news`: the
whole fetch+store sits in `try/except`, whose handler records 0 for the
symbol.  A store-transaction failure (`dbFail`) can only occur when a
non-empty batch reaches the engine; it rolls back, leaving the table
unchanged. -/
def newsStep (env : Env) (http : String → Nat → Except String (List NewsItem))
    (dbFail : String → Bool) (daysBack : Nat)
    (acc : NewsDB × List (String × Nat)) (symbol : String) :
    NewsDB × List (String × Nat) :=
  match fetch_company_news env http symbol daysBack with
  | .error _ => (acc.1, setR acc.2 symbol 0)
  | .ok items =>
    if items.isEmpty then (acc.1, setR acc.2 symbol 0)
    else if dbFail symbol then (acc.1, setR acc.2 symbol 0)
    else ((store_news acc.1 symbol items).1,
      setR acc.2 symbol (store_news acc.1 symbol items).2)

/-- The per-symbol loop of `fetch_and_store_news`. -/
def newsGo (env : Env) (http : String → Nat → Except String (List NewsItem))
    (dbFail : String → Bool) (daysBack : Nat) :
    NewsDB × List (String × Nat) → List String → NewsDB × List (String × Nat)
  | acc, [] => acc
  | acc, s :: ss => newsGo env http dbFail daysBack (newsStep env http dbFail daysBack acc s) ss

/-- `fetch_and_store_news(symbols, days_back)`. -/
def fetch_and_store_news (env : Env)
    (http : String → Nat → Except String (List NewsItem))
    (dbFail : String → Bool) (daysBack : Nat) (db : NewsDB)
    (symbols : List String) : NewsDB × List (String × Nat) :=
  if symbols.isEmpty then (db, [])
  else newsGo env http dbFail daysBack (db, []) symbols

/-! ## Insider fetcher (ingestion/insider_fetcher.py) -/

/-- `fetch_insider_transactions(symbol)`: same shape as the news fetch —
the key is read before the `try`, the HTTP call inside it. -/
def fetch_insider_transactions (env : Env)
    (http : String → Except String (List InsiderTxn))
    (symbol : String) : Except String (List InsiderTxn) :=
  match get_finnhub_key env with
  | .error e => .error e
  | .ok _ =>
    match http symbol with
    | .ok txns => .ok txns
    | .error _ => .ok []

/-- One iteration of the per-symbol loop in `fetch_and_store_insider`. -/
def insiderStep (env : Env) (http : String → Except String (List InsiderTxn))
    (dbFail : String → Bool)
    (acc : InsiderDB × List (String × Nat)) (symbol : String) :
    InsiderDB × List (String × Nat) :=
  match fetch_insider_transactions env http symbol with
  | .error _ => (acc.1, setR acc.2 symbol 0)
  | .ok txns =>
    if txns.isEmpty then (acc.1, setR acc.2 symbol 0)
    else if dbFail symbol then (acc.1, setR acc.2 symbol 0)
    else ((store_insider acc.1 symbol txns).1,
      setR acc.2 symbol (store_insider acc.1 symbol txns).2)

/-- The per-symbol loop of `fetch_and_store_insider`. -/
def insiderGo (env : Env) (http : String → Except String (List InsiderTxn))
    (dbFail : String → Bool) :
    InsiderDB × List (String × Nat) → List String → InsiderDB × List (String × Nat)
  | acc, [] => acc
  | acc, s :: ss => insiderGo env http dbFail (insiderStep env http dbFail acc s) ss

/-- `fetch_and_store_insider(symbols)`. -/
def fetch_and_store_insider (env : Env)
    (http : String → Except String (List InsiderTxn))
    (dbFail : String → Bool) (db : InsiderDB)
    (symbols : List String) : InsiderDB × List (String × Nat) :=
  if symbols.isEmpty then (db, [])
  else insiderGo env http dbFail (db, []) symbols

/-! ## Scheduler shutdown (ingestion/scheduler.py) -/

/-- The scheduling library's state as far as shutdown is concerned: whether
the scheduler is accepting ticks, which job executions are currently in
flight, and which executions have run to completion. -/
structure SchedulerState where
  running : Bool
  inFlight : List String
  finished : List String
deriving DecidableEq, Repr

/-- The scheduling library's `shutdown(wait=...)` (an external
collaborator, modelled from its documented semantics): with `wait = true`
the call blocks until every in-flight job execution runs to completion
before the scheduler terminates; with `wait = false` it terminates at
once, without waiting, so in-flight executions are not run to completion
by the scheduler. -/
def SchedulerState.shutdown (s : SchedulerState) (wait : Bool) : SchedulerState :=
  if wait then { running := false, inFlight := [], finished := s.finished ++ s.inFlight }
  else { running := false, inFlight := [], finished := s.finished }

/-- The shutdown performed by `main()` on the shutdown signal
(KeyboardInterrupt): `scheduler.shutdown(wait=False)`. -/
def mainShutdown (s : SchedulerState) : SchedulerState :=
  s.shutdown false

/-! ## Concrete fixtures used by witnesses -/

/-- A concrete provider news item. -/
def itemW : NewsItem :=
  { datetime := some 5, timestamp := none, headline := some "h", title := none,
    summary := none, description := none, source := none, url := none }

/-- A concrete provider insider transaction. -/
def txnW : InsiderTxn :=
  { transactionDate := some 3, date := none, transactionType := some "S", typ := none,
    shares := some 10, price := some 2, value := some 20, name := some "Jane Roe",
    insiderName := none }

/-- A news table already holding the row `itemW` normalises to. -/
def newsDbW : NewsDB := [newsRecordOf "AAPL" itemW]

/-- An insider table already holding the row `txnW` normalises to. -/
def insDbW : InsiderDB := [insiderRecordOf "AAPL" txnW]

/-- A concrete one-row, one-column price frame. -/
def dfW : DataFrame := { index := [1], cols := [("open", [5])] }

/-- A provider HTTP oracle that succeeds with one news item for every
symbol. -/
def httpOkW : String → Nat → Except String (List NewsItem) := fun _ _ => .ok [itemW]

/-- A provider HTTP oracle that succeeds with one insider transaction for
every symbol. -/
def httpInsOkW : String → Except String (List InsiderTxn) := fun _ => .ok [txnW]

/-- An engine that never fails a store transaction. -/
def noDbFail : String → Bool := fun _ => false

/-- A bulk download oracle returning two days of data for AAPL only (the
multi-symbol view carries no MSFT columns). -/
def dlW : List String → String → String → Option DownloadResult := fun _ _ _ =>
  some { index := [0, 1]
         flatCols := []
         multiCols := [(("Open", "AAPL"), [10, 11]), (("High", "AAPL"), [12, 13]),
                       (("Low", "AAPL"), [9, 10]), (("Close", "AAPL"), [10, 12]),
                       (("Volume", "AAPL"), [100, 200])] }

/-- An environment carrying the provider credential. -/
def envW : Env := [("FINNHUB_API_KEY", "k")]

/-- A provider HTTP oracle whose request raises for MSFT only. -/
def httpErrW : String → Nat → Except String (List NewsItem) := fun s _ =>
  if s = "MSFT" then .error "boom" else .ok [itemW]

/-- A bulk download oracle with a non-empty single-symbol (flat) view. -/
def dlSingleW : List String → String → String → Option DownloadResult := fun _ _ _ =>
  some { index := [0], flatCols := [("Open", [10])], multiCols := [] }

/-- An engine that fails every store transaction. -/
def failDbW : String → Bool := fun _ => true

/-! ## Algebra of the store primitives -/

section StoreLemmas

variable {α : Type} {κ : Type} [DecidableEq κ]

theorem mem_of_getLastEq {β : Type} {l : List β} {a : β}
    (h : l.getLast? = some a) : a ∈ l := by
  rcases List.mem_getLast?_eq_getLast (Option.mem_def.mpr h) with ⟨hne, hga⟩
  rw [hga]
  exact List.getLast_mem hne

theorem hasK_iff (key : α → κ) {db : List α} {k : κ} :
    hasK key db k = true ↔ ∃ x ∈ db, key x = k := by
  simp [hasK, List.any_eq_true]

theorem hasK_append (key : α → κ) {db₁ db₂ : List α} {k : κ} :
    hasK key (db₁ ++ db₂) k = (hasK key db₁ k || hasK key db₂ k) := by
  simp [hasK, List.any_append]

theorem applyLast_nil (key : α → κ) (x : α) : applyLast key [] x = x := rfl

theorem key_lastWith (key : α → κ) {l : List α} {k : κ} {r : α}
    (h : lastWith key l k = some r) : key r = k := by
  have hr : r ∈ l.filter fun a => decide (key a = k) := by
    unfold lastWith at h
    exact mem_of_getLastEq h
  simpa using (List.mem_filter.mp hr).2

theorem key_applyLast (key : α → κ) (l : List α) (x : α) :
    key (applyLast key l x) = key x := by
  unfold applyLast
  cases h : lastWith key l (key x) with
  | none => rfl
  | some r => simpa using key_lastWith key h

theorem applyLast_append (key : α → κ) (l : List α) (r x : α) :
    applyLast key (l ++ [r]) x = if key x = key r then r else applyLast key l x := by
  unfold applyLast lastWith
  rw [List.filter_append]
  by_cases h : key x = key r
  · have he : (([r] : List α).filter fun a => decide (key a = key x)) = [r] := by
      simp [h]
    rw [he, if_pos h]
    simp
  · have hrx : ¬ key r = key x := fun hc => h hc.symm
    have he : (([r] : List α).filter fun a => decide (key a = key x)) = [] := by
      simp [hrx]
    rw [he, if_neg h, List.append_nil]

theorem upsertAll_append (key : α → κ) (db l : List α) (r : α) :
    upsertAll key db (l ++ [r]) = upsertRow key (upsertAll key db l) r := by
  induction l generalizing db with
  | nil => rfl
  | cons a t ih => simpa [upsertAll] using ih (upsertRow key db a)

theorem hasK_upsertRow_iff (key : α → κ) {db : List α} {r : α} {k : κ} :
    hasK key (upsertRow key db r) k = true ↔ (hasK key db k = true ∨ key r = k) := by
  unfold upsertRow
  by_cases h : hasK key db (key r)
  · rw [if_pos h]
    have hmap : ∀ x : α, key (if key x = key r then r else x) = key x := by
      intro x
      by_cases hx : key x = key r
      · simp [hx]
      · simp [hx]
    constructor
    · intro hm
      rcases (hasK_iff key).mp hm with ⟨y, hy, hky⟩
      rcases List.mem_map.mp hy with ⟨x, hx, hxy⟩
      exact Or.inl ((hasK_iff key).mpr ⟨x, hx, by rw [← hmap x, hxy]; exact hky⟩)
    · rintro (hdb | hk)
      · rcases (hasK_iff key).mp hdb with ⟨x, hx, hkx⟩
        exact (hasK_iff key).mpr ⟨if key x = key r then r else x,
          List.mem_map_of_mem _ hx, by rw [hmap x]; exact hkx⟩
      · rcases (hasK_iff key).mp h with ⟨x, hx, hkx⟩
        exact (hasK_iff key).mpr ⟨if key x = key r then r else x,
          List.mem_map_of_mem _ hx, by rw [hmap x, hkx, hk]⟩
  · rw [if_neg h, hasK_append key]
    simp [hasK]

theorem hasK_upsertAll_iff (key : α → κ) {l db : List α} {k : κ} :
    hasK key (upsertAll key db l) k = true ↔
      (hasK key db k = true ∨ ∃ r ∈ l, key r = k) := by
  induction l generalizing db with
  | nil => simp [upsertAll]
  | cons a t ih =>
    rw [upsertAll, ih]
    rw [hasK_upsertRow_iff key]
    constructor
    · rintro ((hdb | ha) | ⟨r, hr, hk⟩)
      · exact Or.inl hdb
      · exact Or.inr ⟨a, by simp, ha⟩
      · exact Or.inr ⟨r, by simp [hr], hk⟩
    · rintro (hdb | ⟨r, hr, hk⟩)
      · exact Or.inl (Or.inl hdb)
      · rcases List.mem_cons.mp hr with h1 | h1
        · exact Or.inl (Or.inr (h1 ▸ hk))
        · exact Or.inr ⟨r, h1, hk⟩

theorem list_map_id_of {β : Type} {f : β → β} :
    ∀ {l : List β}, (∀ x ∈ l, f x = x) → l.map f = l := by
  intro l
  induction l with
  | nil => simp
  | cons a t ih =>
    intro h
    rw [List.map_cons, h a (by simp), ih fun x hx => h x (by simp [hx])]

theorem upsertAll_eq_map (key : α → κ) {l db : List α}
    (hl : ∀ r ∈ l, hasK key db (key r) = true) :
    upsertAll key db l = db.map (applyLast key l) := by
  induction l using List.reverseRecOn generalizing db with
  | nil =>
    simpa [upsertAll] using (list_map_id_of fun x _ => applyLast_nil key x).symm
  | append_singleton l r ih =>
    rw [upsertAll_append, ih fun a ha => hl a (List.mem_append_left _ ha)]
    have hpres : hasK key (db.map (applyLast key l)) (key r) = true := by
      rcases (hasK_iff key).mp (hl r (by simp)) with ⟨x, hx, hkx⟩
      exact (hasK_iff key).mpr ⟨applyLast key l x, List.mem_map_of_mem _ hx,
        by rw [key_applyLast key]; exact hkx⟩
    unfold upsertRow
    rw [if_pos hpres, List.map_map]
    apply List.map_congr_left
    intro x _
    show (if key (applyLast key l x) = key r then r else applyLast key l x) =
      applyLast key (l ++ [r]) x
    rw [key_applyLast key, applyLast_append key]

theorem applyLast_of_mem_upsertAll (key : α → κ) {l db : List α} :
    ∀ x ∈ upsertAll key db l, applyLast key l x = x := by
  induction l using List.reverseRecOn generalizing db with
  | nil => exact fun x _ => applyLast_nil key x
  | append_singleton l r ih =>
    intro x hx
    rw [upsertAll_append] at hx
    unfold upsertRow at hx
    by_cases h : hasK key (upsertAll key db l) (key r)
    · rw [if_pos h] at hx
      rcases List.mem_map.mp hx with ⟨y, hy, hxy⟩
      by_cases hk : key y = key r
      · rw [if_pos hk] at hxy
        rw [← hxy, applyLast_append key, if_pos rfl]
      · rw [if_neg hk] at hxy
        rw [← hxy, applyLast_append key, if_neg hk]
        exact ih y hy
    · rw [if_neg h] at hx
      rcases List.mem_append.mp hx with hy | hy
      · have hk : key x ≠ key r := by
          intro hk
          exact absurd ((hasK_iff key).mpr ⟨x, hy, hk⟩) (by simpa using h)
        rw [applyLast_append key, if_neg hk]
        exact ih x hy
      · have hxr : x = r := by simpa using hy
        rw [hxr, applyLast_append key, if_pos rfl]

theorem upsertAll_idem (key : α → κ) (db l : List α) :
    upsertAll key (upsertAll key db l) l = upsertAll key db l := by
  have hl : ∀ r ∈ l, hasK key (upsertAll key db l) (key r) = true := fun r hr =>
    (hasK_upsertAll_iff key).mpr (Or.inr ⟨r, hr, rfl⟩)
  rw [upsertAll_eq_map key hl]
  exact list_map_id_of (applyLast_of_mem_upsertAll key)

theorem nodup_upsertRow (key : α → κ) {db : List α} {r : α}
    (h : (db.map key).Nodup) : ((upsertRow key db r).map key).Nodup := by
  unfold upsertRow
  by_cases hk : hasK key db (key r)
  · rw [if_pos hk, List.map_map]
    have he : (key ∘ fun x => if key x = key r then r else x) = key := by
      funext x
      by_cases hx : key x = key r
      · simp [hx]
      · simp [hx]
    rw [he]
    exact h
  · rw [if_neg hk, List.map_append]
    have hout : key r ∉ db.map key := by
      intro hm
      rcases List.mem_map.mp hm with ⟨x, hx, hkx⟩
      exact absurd ((hasK_iff key).mpr ⟨x, hx, hkx⟩) (by simpa using hk)
    rw [List.nodup_append]
    refine ⟨h, List.nodup_singleton _, ?_⟩
    intro a ha hb
    have : a = key r := by simpa using hb
    exact hout (this ▸ ha)

theorem nodup_upsertAll (key : α → κ) {l db : List α}
    (h : (db.map key).Nodup) : ((upsertAll key db l).map key).Nodup := by
  induction l generalizing db with
  | nil => exact h
  | cons a t ih => exact ih (nodup_upsertRow key h)

theorem countP_key_eq_one (key : α → κ) {db : List α} {k : κ}
    (hnd : (db.map key).Nodup) (hk : hasK key db k = true) :
    db.countP (fun x => decide (key x = k)) = 1 := by
  induction db with
  | nil => simp [hasK] at hk
  | cons a t ih =>
    rw [List.map_cons, List.nodup_cons] at hnd
    by_cases h : key a = k
    · rw [List.countP_cons, if_pos (by simpa using h)]
      have ht : t.countP (fun x => decide (key x = k)) = 0 := by
        apply List.countP_eq_zero.mpr
        intro x hx hc
        have hxk : key x = k := by simpa using hc
        exact hnd.1 (by rw [← h] at hxk; exact hxk ▸ List.mem_map_of_mem key hx)
      rw [ht]
    · rw [List.countP_cons, if_neg (by simpa using h)]
      have ht : hasK key t k = true := by
        rcases (hasK_iff key).mp hk with ⟨x, hx, hkx⟩
        rcases List.mem_cons.mp hx with h1 | h1
        · exact absurd (h1 ▸ hkx) h
        · exact (hasK_iff key).mpr ⟨x, h1, hkx⟩
      simpa using ih hnd.2 ht

end StoreLemmas

section InsertIgnoreLemmas

variable {α : Type} {κ : Type} [DecidableEq κ]

theorem insertIgnoreAll_sub (key : α → κ) :
    ∀ (rs db : List α), ∃ ext, (insertIgnoreAll key db rs).1 = db ++ ext ∧
      ∀ x ∈ ext, x ∈ rs := by
  intro rs
  induction rs with
  | nil => exact fun db => ⟨[], by simp [insertIgnoreAll], by simp⟩
  | cons r rs ih =>
    intro db
    rw [insertIgnoreAll]
    by_cases h : hasK key db (key r)
    · rw [if_pos h]
      rcases ih db with ⟨ext, he, hs⟩
      exact ⟨ext, he, fun x hx => List.mem_cons_of_mem _ (hs x hx)⟩
    · rw [if_neg h]
      rcases ih (db ++ [r]) with ⟨ext, he, hs⟩
      refine ⟨r :: ext, ?_, ?_⟩
      · show (insertIgnoreAll key (db ++ [r]) rs).1 = db ++ r :: ext
        rw [he, List.append_assoc]
        rfl
      · intro x hx
        rcases List.mem_cons.mp hx with h1 | h1
        · exact h1 ▸ List.mem_cons_self r rs
        · exact List.mem_cons_of_mem _ (hs x h1)

theorem hasK_insertIgnoreAll_mono (key : α → κ) {rs db : List α} {k : κ}
    (h : hasK key db k = true) : hasK key (insertIgnoreAll key db rs).1 k = true := by
  rcases insertIgnoreAll_sub key rs db with ⟨ext, he, -⟩
  rw [he, hasK_append key, h]
  rfl

theorem hasK_insertIgnoreAll (key : α → κ) :
    ∀ (rs db : List α), ∀ r ∈ rs, hasK key (insertIgnoreAll key db rs).1 (key r) = true := by
  intro rs
  induction rs with
  | nil => intro db r hr; exact absurd hr (List.not_mem_nil r)
  | cons a t ih =>
    intro db r hr
    rw [insertIgnoreAll]
    by_cases h : hasK key db (key a)
    · rw [if_pos h]
      rcases List.mem_cons.mp hr with h1 | h1
      · exact hasK_insertIgnoreAll_mono key (h1 ▸ h)
      · exact ih db r h1
    · rw [if_neg h]
      rcases List.mem_cons.mp hr with h1 | h1
      · show hasK key (insertIgnoreAll key (db ++ [a]) t).1 (key r) = true
        apply hasK_insertIgnoreAll_mono key
        rw [hasK_append key]
        have : hasK key [a] (key r) = true := by
          simp [hasK, h1]
        rw [this]
        simp
      · exact ih (db ++ [a]) r h1

theorem insertIgnoreAll_of_allPresent (key : α → κ) :
    ∀ (rs db : List α), (∀ r ∈ rs, hasK key db (key r) = true) →
      insertIgnoreAll key db rs = (db, 0) := by
  intro rs
  induction rs with
  | nil => intro db _; rfl
  | cons a t ih =>
    intro db h
    rw [insertIgnoreAll, if_pos (h a (List.mem_cons_self a t))]
    exact ih db fun r hr => h r (List.mem_cons_of_mem _ hr)

theorem insertIgnoreAll_idem (key : α → κ) (db rs : List α) :
    insertIgnoreAll key (insertIgnoreAll key db rs).1 rs =
      ((insertIgnoreAll key db rs).1, 0) :=
  insertIgnoreAll_of_allPresent key rs _ (hasK_insertIgnoreAll key rs db)

theorem nodup_insertIgnoreAll (key : α → κ) :
    ∀ (rs db : List α), (db.map key).Nodup →
      ((insertIgnoreAll key db rs).1.map key).Nodup := by
  intro rs
  induction rs with
  | nil => exact fun db h => h
  | cons a t ih =>
    intro db h
    rw [insertIgnoreAll]
    by_cases hk : hasK key db (key a)
    · rw [if_pos hk]
      exact ih db h
    · rw [if_neg hk]
      show ((insertIgnoreAll key (db ++ [a]) t).1.map key).Nodup
      apply ih
      rw [List.map_append, List.nodup_append]
      refine ⟨h, List.nodup_singleton _, ?_⟩
      intro b hb hc
      have hbk : b = key a := by simpa using hc
      rcases List.mem_map.mp (hbk ▸ hb) with ⟨x, hx, hkx⟩
      exact absurd ((hasK_iff key).mpr ⟨x, hx, hkx⟩) (by simpa using hk)

theorem hasK_filter (key : α → κ) (p : α → Bool) {k : κ}
    (hp : ∀ x, key x = k → p x = true) (db : List α) :
    hasK key (db.filter p) k = hasK key db k := by
  induction db with
  | nil => rfl
  | cons a t ih =>
    by_cases ha : p a
    · rw [List.filter_cons_of_pos ha]
      simp only [hasK, List.any_cons] at ih ⊢
      rw [ih]
    · rw [List.filter_cons_of_neg ha]
      have hka : decide (key a = k) = false := by
        by_cases h : key a = k
        · exact absurd (hp a h) ha
        · simp [h]
      simp only [hasK, List.any_cons, hka] at ih ⊢
      rw [ih]
      simp

theorem insertIgnoreAll_filter_congr (key : α → κ) (p : α → Bool)
    (hkey : ∀ x y, key x = key y → p x = p y) :
    ∀ (rs : List α) {db₁ db₂ : List α}, (∀ r ∈ rs, p r = true) →
      db₁.filter p = db₂.filter p →
      (insertIgnoreAll key db₁ rs).2 = (insertIgnoreAll key db₂ rs).2 ∧
      (insertIgnoreAll key db₁ rs).1.filter p = (insertIgnoreAll key db₂ rs).1.filter p := by
  intro rs
  induction rs with
  | nil => intro db₁ db₂ _ hdb; exact ⟨rfl, hdb⟩
  | cons r rs ih =>
    intro db₁ db₂ hrs hdb
    have hpr : p r = true := hrs r (List.mem_cons_self r rs)
    have hp : ∀ x, key x = key r → p x = true := fun x hx => (hkey x r hx).trans hpr
    have h1 : hasK key db₁ (key r) = hasK key db₂ (key r) := by
      rw [← hasK_filter key p hp db₁, ← hasK_filter key p hp db₂, hdb]
    rw [insertIgnoreAll, insertIgnoreAll, ← h1]
    by_cases h : hasK key db₁ (key r)
    · rw [if_pos h, if_pos h]
      exact ih (fun a ha => hrs a (List.mem_cons_of_mem _ ha)) hdb
    · rw [if_neg h, if_neg h]
      have hdb' : (db₁ ++ [r]).filter p = (db₂ ++ [r]).filter p := by
        rw [List.filter_append, List.filter_append, hdb]
      rcases ih (fun a ha => hrs a (List.mem_cons_of_mem _ ha)) hdb' with ⟨hc, hf⟩
      exact ⟨by simpa using hc, hf⟩

theorem filter_insertIgnoreAll_frame (key : α → κ) (q : α → Bool) {rs db : List α}
    (h : ∀ r ∈ rs, q r = false) :
    (insertIgnoreAll key db rs).1.filter q = db.filter q := by
  rcases insertIgnoreAll_sub key rs db with ⟨ext, he, hs⟩
  rw [he, List.filter_append]
  have hext : ext.filter q = [] := by
    apply List.filter_eq_nil_iff.mpr
    intro x hx
    simp [h x (hs x hx)]
  rw [hext, List.append_nil]

end InsertIgnoreLemmas

/-! ## Outcome-map lemmas -/

theorem lookupR_setR (s t : String) (n : Nat) :
    ∀ res : List (String × Nat),
      lookupR (setR res s n) t = if t = s then some n else lookupR res t := by
  have aux : ∀ (res : List (String × Nat)), t ≠ s →
      lookupR (res.map fun p => if p.1 = s then (s, n) else p) t = lookupR res t := by
    intro res hts
    induction res with
    | nil => rfl
    | cons b res ih =>
      by_cases hb : b.1 = s
      · rw [List.map_cons, if_pos hb, lookupR, lookupR,
          if_neg (show ¬ s = t from fun hc => hts hc.symm),
          if_neg (show ¬ b.1 = t from hb ▸ fun hc => hts hc.symm)]
        exact ih
      · rw [List.map_cons, if_neg hb, lookupR, lookupR]
        by_cases hbt : b.1 = t
        · rw [if_pos hbt, if_pos hbt]
        · rw [if_neg hbt, if_neg hbt]
          exact ih
  intro res
  induction res with
  | nil =>
    rw [setR, if_neg (by simp), List.nil_append, lookupR, lookupR]
    by_cases h : t = s
    · rw [if_pos h.symm, if_pos h]
    · rw [if_neg (show ¬ s = t from fun hc => h hc.symm), if_neg h]
      rfl
  | cons a res ih =>
    by_cases ha : a.1 = s
    · have hany : (a :: res).any (fun p => decide (p.1 = s)) = true := by
        simp [List.any_cons, ha]
      rw [setR, if_pos hany, List.map_cons, if_pos ha, lookupR]
      by_cases h : t = s
      · rw [if_pos h.symm, if_pos h]
      · rw [if_neg (show ¬ s = t from fun hc => h hc.symm), if_neg h, aux res h,
          lookupR, if_neg (show ¬ a.1 = t from fun hc => h (hc.symm.trans ha))]
    · have hstep : setR (a :: res) s n = a :: setR res s n := by
        by_cases hc : res.any fun p => decide (p.1 = s)
        · have hany : (a :: res).any (fun p => decide (p.1 = s)) = true := by
            simp [List.any_cons, hc]
          rw [setR, if_pos hany, List.map_cons, if_neg ha, setR, if_pos hc]
        · have hany : (a :: res).any (fun p => decide (p.1 = s)) = false := by
            simp [List.any_cons, ha, hc]
          have hc2 : (res.any fun p => decide (p.1 = s)) = false :=
            eq_false_of_ne_true hc
          unfold setR
          rw [hany, hc2]
          simp
      rw [hstep, lookupR]
      by_cases hat : a.1 = t
      · have h : ¬ t = s := fun hc => ha (hat ▸ hc : a.1 = s)
        rw [if_pos hat, if_neg h, lookupR, if_pos hat]
      · rw [if_neg hat, ih]
        by_cases h : t = s
        · rw [if_pos h, if_pos h]
        · rw [if_neg h, if_neg h, lookupR, if_neg hat]

theorem lookupR_setR_self (res : List (String × Nat)) (s : String) (n : Nat) :
    lookupR (setR res s n) s = some n := by
  rw [lookupR_setR, if_pos rfl]

theorem lookupR_setR_ne {s t : String} (h : t ≠ s) (res : List (String × Nat)) (n : Nat) :
    lookupR (setR res s n) t = lookupR res t := by
  rw [lookupR_setR, if_neg h]

/-! ## Store-writer lemmas at the level of the db/client.py functions -/

theorem store_prices_eq (db : PriceDB) (s : String) (df : DataFrame)
    (hne : df.isEmpty = false) (hr : (priceRecords s df).isEmpty = false) :
    store_prices db s df =
      (upsertAll priceKey db (priceRecords s df), (priceRecords s df).length) := by
  rw [store_prices, hne]
  show (if (priceRecords s df).isEmpty = true then _ else _) = _
  rw [hr]
  simp

theorem priceRecords_length (s : String) (df : DataFrame) :
    (priceRecords s df).length = df.index.length := by
  simp [priceRecords]

theorem priceRecords_ne_of_index (s : String) (df : DataFrame)
    (hne : df.isEmpty = false) : (priceRecords s df).isEmpty = false := by
  have hidx : df.index.isEmpty = false := by
    have h2 : (df.index.isEmpty || df.cols.isEmpty) = false := hne
    exact (Bool.or_eq_false_iff.mp h2).1
  cases hrec : priceRecords s df with
  | cons a t => rfl
  | nil =>
    exfalso
    have h0 : df.index.length = 0 := by
      rw [← priceRecords_length s df, hrec]
      rfl
    rw [List.length_eq_zero] at h0
    rw [h0] at hidx
    exact absurd hidx (by simp)

/-! ## Unfolding lemmas for the store writers -/

theorem store_news_of_isEmpty (db : NewsDB) (s : String) (items : List NewsItem)
    (hi : items.isEmpty = true) : store_news db s items = (db, 0) := by
  unfold store_news
  rw [hi]
  simp

theorem store_news_of_ne (db : NewsDB) (s : String) (items : List NewsItem)
    (hi : items.isEmpty = false) :
    store_news db s items = insertIgnoreAll newsKey db (items.map (newsRecordOf s)) := by
  unfold store_news
  rw [hi]
  simp

theorem store_insider_of_isEmpty (idb : InsiderDB) (s : String) (txns : List InsiderTxn)
    (hi : txns.isEmpty = true) : store_insider idb s txns = (idb, 0) := by
  unfold store_insider
  rw [hi]
  simp

theorem store_insider_of_ne (idb : InsiderDB) (s : String) (txns : List InsiderTxn)
    (hi : txns.isEmpty = false) :
    store_insider idb s txns = insertIgnoreAll insiderKey idb (txns.map (insiderRecordOf s)) := by
  unfold store_insider
  rw [hi]
  simp

/-! ## Claim theorems -/

/-- Claim C2: storing a price bar for a (symbol, timestamp) key that is
already stored overwrites all value columns and leaves exactly one row for
that key, and storing the same batch of price bars twice leaves the prices
table in the same state as storing it once, with the latest values
retained (`store_prices` is idempotent on the price-bar key). -/
theorem store_prices_idempotent_one_row (db : PriceDB) (s : String) (df : DataFrame)
    (hnd : (db.map priceKey).Nodup) (hne : df.isEmpty = false) :
    (store_prices (store_prices db s df).1 s df).1 = (store_prices db s df).1 ∧
    ((store_prices db s df).1.map priceKey).Nodup ∧
    (∀ r ∈ priceRecords s df,
      (store_prices db s df).1.countP (fun x => decide (priceKey x = priceKey r)) = 1) ∧
    (∀ x ∈ (store_prices db s df).1, ∀ r,
      lastWith priceKey (priceRecords s df) (priceKey x) = some r → x = r) := by
  have hr := priceRecords_ne_of_index s df hne
  rw [store_prices_eq db s df hne hr]
  refine ⟨?_, ?_, ?_, ?_⟩
  · show (store_prices (upsertAll priceKey db (priceRecords s df)) s df).1 = _
    rw [store_prices_eq _ s df hne hr]
    exact upsertAll_idem priceKey db (priceRecords s df)
  · exact nodup_upsertAll priceKey hnd
  · intro r hrr
    exact countP_key_eq_one priceKey (nodup_upsertAll priceKey hnd)
      ((hasK_upsertAll_iff priceKey).mpr (Or.inr ⟨r, hrr, rfl⟩))
  · intro x hx r hlast
    have h1 := applyLast_of_mem_upsertAll priceKey x hx
    unfold applyLast at h1
    rw [hlast] at h1
    have h2 : r = x := by simpa using h1
    exact h2.symm

/-- Witness for C2 at a concrete one-row frame over an empty table. -/
theorem store_prices_idempotent_one_row_witness :
    ((([] : PriceDB).map priceKey).Nodup ∧ dfW.isEmpty = false) ∧
    (store_prices (store_prices [] "SPY" dfW).1 "SPY" dfW).1 =
      (store_prices [] "SPY" dfW).1 :=
  ⟨⟨by decide, by decide⟩,
    (store_prices_idempotent_one_row [] "SPY" dfW (by decide) (by decide)).1⟩

/-- Claim C3: storing a news item whose dedup key (symbol, timestamp,
headline) already exists is a silent no-op — the existing row is never
overwritten, no error is raised, and storing the same items twice leaves
exactly one row per dedup key; the same insert-or-ignore discipline holds
for insider transactions on their dedup key (symbol, transaction_date,
transaction_type, insider_name). -/
theorem store_news_insider_insert_or_ignore (db : NewsDB) (idb : InsiderDB) (s : String)
    (items : List NewsItem) (txns : List InsiderTxn)
    (hnd : (db.map newsKey).Nodup) (hndi : (idb.map insiderKey).Nodup) :
    (∀ item : NewsItem, hasK newsKey db (newsKey (newsRecordOf s item)) = true →
      store_news db s [item] = (db, 0)) ∧
    (∃ ext, (store_news db s items).1 = db ++ ext) ∧
    (store_news (store_news db s items).1 s items = ((store_news db s items).1, 0)) ∧
    (∀ it ∈ items, (store_news db s items).1.countP
      (fun x => decide (newsKey x = newsKey (newsRecordOf s it))) = 1) ∧
    (∀ txn : InsiderTxn, hasK insiderKey idb (insiderKey (insiderRecordOf s txn)) = true →
      store_insider idb s [txn] = (idb, 0)) ∧
    (∃ ext, (store_insider idb s txns).1 = idb ++ ext) ∧
    (store_insider (store_insider idb s txns).1 s txns = ((store_insider idb s txns).1, 0)) ∧
    (∀ tx ∈ txns, (store_insider idb s txns).1.countP
      (fun x => decide (insiderKey x = insiderKey (insiderRecordOf s tx))) = 1) := by
  refine ⟨?_, ?_, ?_, ?_, ?_, ?_, ?_, ?_⟩
  · intro item h
    show insertIgnoreAll newsKey db [newsRecordOf s item] = (db, 0)
    rw [insertIgnoreAll, if_pos h, insertIgnoreAll]
  · cases hi : items.isEmpty
    · rcases insertIgnoreAll_sub newsKey (items.map (newsRecordOf s)) db with ⟨ext, he, -⟩
      refine ⟨ext, ?_⟩
      rw [store_news_of_ne db s items hi]
      exact he
    · refine ⟨[], ?_⟩
      rw [store_news_of_isEmpty db s items hi, List.append_nil]
  · cases hi : items.isEmpty
    · rw [store_news_of_ne db s items hi, store_news_of_ne _ s items hi]
      exact insertIgnoreAll_idem newsKey db _
    · rw [store_news_of_isEmpty db s items hi]
      rw [store_news_of_isEmpty db s items hi]
  · intro it hit
    have hi : items.isEmpty = false := by
      cases items with
      | nil => exact absurd hit (List.not_mem_nil it)
      | cons a t => rfl
    rw [store_news_of_ne db s items hi]
    exact countP_key_eq_one newsKey (nodup_insertIgnoreAll newsKey _ db hnd)
      (hasK_insertIgnoreAll newsKey _ db _ (List.mem_map_of_mem _ hit))
  · intro txn h
    show insertIgnoreAll insiderKey idb [insiderRecordOf s txn] = (idb, 0)
    rw [insertIgnoreAll, if_pos h, insertIgnoreAll]
  · cases hi : txns.isEmpty
    · rcases insertIgnoreAll_sub insiderKey (txns.map (insiderRecordOf s)) idb with ⟨ext, he, -⟩
      refine ⟨ext, ?_⟩
      rw [store_insider_of_ne idb s txns hi]
      exact he
    · refine ⟨[], ?_⟩
      rw [store_insider_of_isEmpty idb s txns hi, List.append_nil]
  · cases hi : txns.isEmpty
    · rw [store_insider_of_ne idb s txns hi, store_insider_of_ne _ s txns hi]
      exact insertIgnoreAll_idem insiderKey idb _
    · rw [store_insider_of_isEmpty idb s txns hi]
      rw [store_insider_of_isEmpty idb s txns hi]
  · intro tx htx
    have hi : txns.isEmpty = false := by
      cases txns with
      | nil => exact absurd htx (List.not_mem_nil tx)
      | cons a t => rfl
    rw [store_insider_of_ne idb s txns hi]
    exact countP_key_eq_one insiderKey (nodup_insertIgnoreAll insiderKey _ idb hndi)
      (hasK_insertIgnoreAll insiderKey _ idb _ (List.mem_map_of_mem _ htx))

/-- Witness for C3: re-storing an already-stored news item and insider
transaction is a no-op returning 0 on each table. -/
theorem store_news_insider_insert_or_ignore_witness :
    ((newsDbW.map newsKey).Nodup ∧ (insDbW.map insiderKey).Nodup) ∧
    store_news newsDbW "AAPL" [itemW] = (newsDbW, 0) ∧
    store_insider insDbW "AAPL" [txnW] = (insDbW, 0) :=
  ⟨⟨by decide, by decide⟩,
    (store_news_insider_insert_or_ignore newsDbW insDbW "AAPL" [itemW] [txnW]
      (by decide) (by decide)).1 itemW (by decide),
    (store_news_insider_insert_or_ignore newsDbW insDbW "AAPL" [itemW] [txnW]
      (by decide) (by decide)).2.2.2.2.1 txnW (by decide)⟩

/-- Claim C6: for each store writer, an empty input sequence is a no-op
that returns zero, never raises, and leaves the stored state unchanged. -/
theorem store_empty_is_noop (pdb : PriceDB) (ndb : NewsDB) (idb : InsiderDB)
    (s : String) (df : DataFrame) (hdf : df.isEmpty = true) :
    store_prices pdb s df = (pdb, 0) ∧ store_news ndb s [] = (ndb, 0) ∧
    store_insider idb s [] = (idb, 0) := by
  refine ⟨?_, rfl, rfl⟩
  rw [store_prices, if_pos hdf]

/-- Witness for C6 at the empty frame and empty batches. -/
theorem store_empty_is_noop_witness :
    (DataFrame.mk [] []).isEmpty = true ∧
    store_prices [] "SPY" (DataFrame.mk [] []) = ([], 0) ∧
    store_news [] "SPY" [] = ([], 0) ∧
    store_insider [] "SPY" [] = ([], 0) :=
  ⟨rfl,
    (store_empty_is_noop [] [] [] "SPY" (DataFrame.mk [] []) rfl).1,
    (store_empty_is_noop [] [] [] "SPY" (DataFrame.mk [] []) rfl).2.1,
    (store_empty_is_noop [] [] [] "SPY" (DataFrame.mk [] []) rfl).2.2⟩

/-- Claim C7: the price adapter's "latest" mode `fetch_latest_prices` is
extensionally equal to `fetch_and_store_prices` called with a one-day
period and one-day interval — a parametrisation of the same code path. -/
theorem fetch_latest_prices_is_one_day_fetch
    (dl : List String → String → String → Option DownloadResult)
    (dbFail : String → Bool) (db : PriceDB) (symbols : List String) :
    fetch_latest_prices dl dbFail db symbols =
      fetch_and_store_prices dl dbFail db symbols "1d" "1d" := rfl

/-- Claim C9: `store_prices` coerces an absent OHLCV field to zero rather
than failing: a row with neither the lowercase nor the capitalised key for
a concept stores 0 for it (volume as the integer 0). -/
theorem store_prices_missing_fields_zero (s : String) (df : DataFrame)
    (i : Nat) (ts : Timestamp) :
    (df.cols.lookup "open" = none → df.cols.lookup "Open" = none →
      (priceRecordAt s df i ts).open_ = 0) ∧
    (df.cols.lookup "high" = none → df.cols.lookup "High" = none →
      (priceRecordAt s df i ts).high = 0) ∧
    (df.cols.lookup "low" = none → df.cols.lookup "Low" = none →
      (priceRecordAt s df i ts).low = 0) ∧
    (df.cols.lookup "close" = none → df.cols.lookup "Close" = none →
      (priceRecordAt s df i ts).close = 0) ∧
    (df.cols.lookup "volume" = none → df.cols.lookup "Volume" = none →
      (priceRecordAt s df i ts).volume = 0) := by
  refine ⟨?_, ?_, ?_, ?_, ?_⟩ <;>
    · intro h1 h2
      simp [priceRecordAt, rowVal, DataFrame.cell, h1, h2, pyInt,
        show Rat.floor 0 = 0 from rfl]

/-- Witness for C9: a frame whose only column is unrelated stores an
all-zero bar. -/
theorem store_prices_missing_fields_zero_witness :
    (DataFrame.mk [7] [("foo", [5])]).cols.lookup "open" = none ∧
    (priceRecordAt "SPY" (DataFrame.mk [7] [("foo", [5])]) 0 7).open_ = 0 ∧
    (priceRecordAt "SPY" (DataFrame.mk [7] [("foo", [5])]) 0 7).volume = 0 :=
  ⟨by decide,
    (store_prices_missing_fields_zero "SPY" (DataFrame.mk [7] [("foo", [5])]) 0 7).1
      (by decide) (by decide),
    (store_prices_missing_fields_zero "SPY" (DataFrame.mk [7] [("foo", [5])]) 0 7).2.2.2.2
      (by decide) (by decide)⟩

/-- Claim C10: `store_insider` stores NULL for price and value not only
when the provider omits them but whenever the provider supplies a falsy
(zero) value: the stored price is NULL exactly when the payload price is
absent or zero, and likewise for value. -/
theorem store_insider_falsy_price_value_null (s : String) (txn : InsiderTxn) :
    ((insiderRecordOf s txn).price = none ↔ txn.price = none ∨ txn.price = some 0) ∧
    ((insiderRecordOf s txn).value = none ↔ txn.value = none ∨ txn.value = some 0) := by
  constructor
  · cases hp : txn.price with
    | none => simp [insiderRecordOf, hp]
    | some p =>
      by_cases h0 : p = 0
      · simp [insiderRecordOf, hp, h0]
      · simp [insiderRecordOf, hp, h0]
  · cases hv : txn.value with
    | none => simp [insiderRecordOf, hv]
    | some v =>
      by_cases h0 : v = 0
      · simp [insiderRecordOf, hv, h0]
      · simp [insiderRecordOf, hv, h0]

/-- Claim C8 counterexample: with one job execution in flight, the shutdown
performed by `main` (`scheduler.shutdown(wait=False)`) terminates the
scheduler without that execution having run to completion — the claim that
in-flight jobs are allowed to finish before the scheduler terminates fails
on this state, while a `wait = true` shutdown would have let it finish. -/
theorem main_shutdown_not_graceful :
    (mainShutdown ⟨true, ["price_ingestion"], []⟩).running = false ∧
    (mainShutdown ⟨true, ["price_ingestion"], []⟩).finished = [] ∧
    (SchedulerState.shutdown ⟨true, ["price_ingestion"], []⟩ true).finished =
      ["price_ingestion"] :=
  ⟨rfl, rfl, rfl⟩

/-- Claim C8 (amended): on the shutdown signal the scheduler stops, but
`main` calls the scheduling library's shutdown with `wait = false`, so the
scheduler terminates immediately and in-flight job executions are not
waited for (they are not run to completion by the scheduler). -/
theorem main_shutdown_wait_false (s : SchedulerState) :
    mainShutdown s = { running := false, inFlight := [], finished := s.finished } := rfl

/-! ## Missing-credential behaviour (news_fetcher.py / insider_fetcher.py) -/

theorem get_finnhub_key_err (env : Env)
    (hk : env.lookup "FINNHUB_API_KEY" = none ∨ env.lookup "FINNHUB_API_KEY" = some "") :
    get_finnhub_key env = .error "FINNHUB_API_KEY environment variable not set" := by
  unfold get_finnhub_key
  rcases hk with h | h
  · rw [h]
  · rw [h]
    simp

theorem fetch_company_news_err (env : Env)
    (http : String → Nat → Except String (List NewsItem)) (symbol : String)
    (daysBack : Nat) (e : String) (he : get_finnhub_key env = .error e) :
    fetch_company_news env http symbol daysBack = .error e := by
  unfold fetch_company_news
  rw [he]

theorem fetch_insider_transactions_err (env : Env)
    (http : String → Except String (List InsiderTxn)) (symbol : String)
    (e : String) (he : get_finnhub_key env = .error e) :
    fetch_insider_transactions env http symbol = .error e := by
  unfold fetch_insider_transactions
  rw [he]

theorem newsGo_err (env : Env) (http : String → Nat → Except String (List NewsItem))
    (dbFail : String → Bool) (daysBack : Nat) (e : String)
    (he : get_finnhub_key env = .error e) :
    ∀ (symbols : List String) (acc : NewsDB × List (String × Nat)),
      newsGo env http dbFail daysBack acc symbols =
        (acc.1, symbols.foldl (fun r s => setR r s 0) acc.2) := by
  intro symbols
  induction symbols with
  | nil => intro acc; rfl
  | cons a t ih =>
    intro acc
    rw [newsGo]
    have hstep : newsStep env http dbFail daysBack acc a = (acc.1, setR acc.2 a 0) := by
      unfold newsStep
      rw [fetch_company_news_err env http a daysBack e he]
    rw [hstep, ih]
    rfl

theorem insiderGo_err (env : Env) (http : String → Except String (List InsiderTxn))
    (dbFail : String → Bool) (e : String)
    (he : get_finnhub_key env = .error e) :
    ∀ (symbols : List String) (acc : InsiderDB × List (String × Nat)),
      insiderGo env http dbFail acc symbols =
        (acc.1, symbols.foldl (fun r s => setR r s 0) acc.2) := by
  intro symbols
  induction symbols with
  | nil => intro acc; rfl
  | cons a t ih =>
    intro acc
    rw [insiderGo]
    have hstep : insiderStep env http dbFail acc a = (acc.1, setR acc.2 a 0) := by
      unfold insiderStep
      rw [fetch_insider_transactions_err env http a e he]
    rw [hstep, ih]
    rfl

/-- Claim C5 counterexample: with FINNHUB_API_KEY unset, a working provider
and a working store, the news and insider ingestion entry points return
normally with a zero-rows outcome for each symbol — the missing credential
is treated as a recoverable per-symbol zero-rows outcome, the job does not
halt and nothing propagates to process start. -/
theorem missing_key_swallowed_counterexample :
    fetch_and_store_news [] httpOkW noDbFail 7 [] ["AAPL"] = ([], [("AAPL", 0)]) ∧
    fetch_and_store_insider [] httpInsOkW noDbFail [] ["AAPL"] = ([], [("AAPL", 0)]) :=
  ⟨by decide, by decide⟩

/-- Claim C5 (amended): a missing (or empty) FINNHUB_API_KEY makes
`get_finnhub_key` raise ValueError, but the raise happens inside each
per-symbol fetch and is caught by the per-symbol exception handler of
`fetch_and_store_news` / `fetch_and_store_insider`: the job runs to
completion with a zero-rows outcome for every symbol, raising nothing and
leaving stored state unchanged; the credential is never checked at process
start. -/
theorem missing_key_degrades_to_zero (env : Env)
    (hk : env.lookup "FINNHUB_API_KEY" = none ∨ env.lookup "FINNHUB_API_KEY" = some "")
    (http : String → Nat → Except String (List NewsItem))
    (httpI : String → Except String (List InsiderTxn))
    (dbFail : String → Bool) (daysBack : Nat) (db : NewsDB) (idb : InsiderDB)
    (symbols : List String) :
    fetch_and_store_news env http dbFail daysBack db symbols = (db, zeroResults symbols) ∧
    fetch_and_store_insider env httpI dbFail idb symbols = (idb, zeroResults symbols) := by
  have he := get_finnhub_key_err env hk
  constructor
  · cases symbols with
    | nil => rfl
    | cons a t =>
      show newsGo env http dbFail daysBack (db, []) (a :: t) = (db, zeroResults (a :: t))
      rw [newsGo_err env http dbFail daysBack _ he]
      rfl
  · cases symbols with
    | nil => rfl
    | cons a t =>
      show insiderGo env httpI dbFail (idb, []) (a :: t) = (idb, zeroResults (a :: t))
      rw [insiderGo_err env httpI dbFail _ he]
      rfl

/-- Witness for the amended C5 at a concrete empty environment. -/
theorem missing_key_degrades_to_zero_witness :
    (([] : Env).lookup "FINNHUB_API_KEY" = none ∨
      ([] : Env).lookup "FINNHUB_API_KEY" = some "") ∧
    fetch_and_store_news [] httpOkW noDbFail 7 [] ["AAPL", "MSFT"] =
      ([], zeroResults ["AAPL", "MSFT"]) ∧
    fetch_and_store_insider [] httpInsOkW noDbFail [] ["AAPL", "MSFT"] =
      ([], zeroResults ["AAPL", "MSFT"]) :=
  ⟨Or.inl rfl,
    (missing_key_degrades_to_zero [] (Or.inl rfl) httpOkW httpInsOkW noDbFail 7 [] []
      ["AAPL", "MSFT"]).1,
    (missing_key_degrades_to_zero [] (Or.inl rfl) httpOkW httpInsOkW noDbFail 7 [] []
      ["AAPL", "MSFT"]).2⟩

/-! ## The multi-symbol price loop (price_fetcher.py) -/

theorem priceStep_empty (data : DownloadResult) (dbFail : String → Bool)
    (acc : PriceDB × List (String × Nat)) (t : String)
    (h : (extractSymbolDf data t).isEmpty = true) :
    priceStep data dbFail acc t = acc := by
  unfold priceStep
  rw [if_pos h]

theorem priceStep_fail (data : DownloadResult) (dbFail : String → Bool)
    (acc : PriceDB × List (String × Nat)) (t : String)
    (h : (extractSymbolDf data t).isEmpty = false) (hf : dbFail t = true) :
    priceStep data dbFail acc t = (acc.1, setR acc.2 t 0) := by
  unfold priceStep
  rw [if_neg (by simp [h]), if_pos hf]

theorem priceStep_store (data : DownloadResult) (dbFail : String → Bool)
    (acc : PriceDB × List (String × Nat)) (t : String)
    (h : (extractSymbolDf data t).isEmpty = false) (hf : dbFail t = false) :
    priceStep data dbFail acc t =
      ((store_prices acc.1 t (extractSymbolDf data t)).1,
        setR acc.2 t (priceRecords t (extractSymbolDf data t)).length) := by
  unfold priceStep
  rw [if_neg (by simp [h]), if_neg (by simp [hf]),
    store_prices_eq acc.1 t _ h (priceRecords_ne_of_index t _ h)]

theorem priceStep_res (data : DownloadResult) (dbFail : String → Bool)
    (acc : PriceDB × List (String × Nat)) (t : String) :
    (priceStep data dbFail acc t).2 = acc.2 ∨
    ∃ n, (priceStep data dbFail acc t).2 = setR acc.2 t n := by
  cases he : (extractSymbolDf data t).isEmpty
  · cases hf : dbFail t
    · rw [priceStep_store data dbFail acc t he hf]
      exact Or.inr ⟨_, rfl⟩
    · rw [priceStep_fail data dbFail acc t he hf]
      exact Or.inr ⟨0, rfl⟩
  · rw [priceStep_empty data dbFail acc t he]
    exact Or.inl rfl

theorem pricesGo_lookupR_notmem (data : DownloadResult) (dbFail : String → Bool)
    (t : String) :
    ∀ (symbols : List String) (acc : PriceDB × List (String × Nat)), t ∉ symbols →
      lookupR (pricesGo data dbFail acc symbols).2 t = lookupR acc.2 t := by
  intro symbols
  induction symbols with
  | nil => intro acc _; rfl
  | cons a ss ih =>
    intro acc hmem
    have hta : t ≠ a := fun hc => hmem (hc ▸ List.mem_cons_self a ss)
    have hss : t ∉ ss := fun hc => hmem (List.mem_cons_of_mem a hc)
    rw [pricesGo, ih _ hss]
    rcases priceStep_res data dbFail acc a with h | ⟨n, h⟩
    · rw [h]
    · rw [h, lookupR_setR_ne hta]

theorem pricesGo_lookupR_mem (data : DownloadResult) (dbFail : String → Bool)
    (t : String) :
    ∀ (symbols : List String) (acc : PriceDB × List (String × Nat)),
      t ∈ symbols → symbols.Nodup → lookupR acc.2 t = none →
      lookupR (pricesGo data dbFail acc symbols).2 t =
        (if (extractSymbolDf data t).isEmpty = true then none
         else if dbFail t = true then some 0
         else some (priceRecords t (extractSymbolDf data t)).length) := by
  intro symbols
  induction symbols with
  | nil => intro acc hmem; exact absurd hmem (List.not_mem_nil t)
  | cons a ss ih =>
    intro acc hmem hnd hnone
    rcases List.nodup_cons.mp hnd with ⟨hna, hnd2⟩
    by_cases hat : t = a
    · subst hat
      rw [pricesGo, pricesGo_lookupR_notmem data dbFail t ss _ hna]
      cases he : (extractSymbolDf data t).isEmpty
      · cases hf : dbFail t
        · rw [priceStep_store data dbFail acc t he hf]
          simpa using lookupR_setR_self acc.2 t _
        · rw [priceStep_fail data dbFail acc t he hf]
          simpa using lookupR_setR_self acc.2 t 0
      · rw [priceStep_empty data dbFail acc t he]
        simpa using hnone
    · have hss : t ∈ ss := by
        rcases List.mem_cons.mp hmem with h | h
        · exact absurd h hat
        · exact h
      rw [pricesGo]
      apply ih _ hss hnd2
      rcases priceStep_res data dbFail acc a with h | ⟨n, h⟩
      · rw [h]; exact hnone
      · rw [h, lookupR_setR_ne hat]; exact hnone

/-- Claim C1 counterexample: with tracked symbols ["AAPL", "MSFT"] and a
provider bulk response carrying data for AAPL only, the result of price
ingestion has no entry at all for MSFT (the claim requires the entry
`some 0`), while AAPL's two stored rows are reported; no exception is
raised. -/
theorem price_outcome_drops_nodata_symbol :
    lookupR (fetch_and_store_prices dlW noDbFail [] ["AAPL", "MSFT"] "1y" "1d").2 "MSFT"
        = none ∧
    lookupR (fetch_and_store_prices dlW noDbFail [] ["AAPL", "MSFT"] "1y" "1d").2 "AAPL"
        = some 2 :=
  ⟨by decide, by decide⟩

/-- Claim C1 (amended): for a multi-symbol price ingestion cycle whose bulk
download succeeds non-empty, the outcome map contains an entry for a
tracked symbol exactly as follows — no entry when the bulk response has no
columns for the symbol (its projected frame is empty), `some 0` when its
store transaction raises, and `some n` (its stored row count) when the
store succeeds; symbols with no data are omitted rather than mapped to
zero (and when the whole download fails or is empty the map is empty). -/
theorem price_outcome_characterization
    (dl : List String → String → String → Option DownloadResult)
    (data : DownloadResult) (dbFail : String → Bool) (db : PriceDB)
    (symbols : List String) (period interval : String) (t : String)
    (hdl : dl symbols period interval = some data)
    (hlen : 2 ≤ symbols.length) (hnd : symbols.Nodup)
    (hne : data.isEmptyFor false = false) (hmem : t ∈ symbols) :
    lookupR (fetch_and_store_prices dl dbFail db symbols period interval).2 t =
      (if (extractSymbolDf data t).isEmpty = true then none
       else if dbFail t = true then some 0
       else some (priceRecords t (extractSymbolDf data t)).length) := by
  have hnil : symbols.isEmpty = false := by
    cases symbols with
    | nil => simp at hlen
    | cons a ss => rfl
  have hone : (symbols.length == 1) = false := by
    have h : symbols.length ≠ 1 := by omega
    simpa using h
  unfold fetch_and_store_prices
  rw [hnil, hdl]
  show lookupR
      (if data.isEmptyFor (symbols.length == 1) = true then (db, [])
       else if (symbols.length == 1) = true then _
       else pricesGo data dbFail (db, []) symbols).2 t = _
  rw [hone, hne]
  show lookupR (pricesGo data dbFail (db, []) symbols).2 t = _
  exact pricesGo_lookupR_mem data dbFail t symbols (db, []) hmem hnd rfl

/-- Witness for the amended C1 at the AAPL/MSFT fixture: MSFT (no data) is
omitted, AAPL (stored) maps to its row count. -/
theorem price_outcome_characterization_witness :
    (dlW ["AAPL", "MSFT"] "1y" "1d" =
      some (DownloadResult.mk [0, 1]
        [] [(("Open", "AAPL"), [10, 11]), (("High", "AAPL"), [12, 13]),
            (("Low", "AAPL"), [9, 10]), (("Close", "AAPL"), [10, 12]),
            (("Volume", "AAPL"), [100, 200])]) ∧
      2 ≤ (["AAPL", "MSFT"] : List String).length ∧
      (["AAPL", "MSFT"] : List String).Nodup) ∧
    lookupR (fetch_and_store_prices dlW noDbFail [] ["AAPL", "MSFT"] "1y" "1d").2 "MSFT"
      = none :=
  ⟨⟨rfl, by decide, by decide⟩, by
    rw [price_outcome_characterization dlW
      (DownloadResult.mk [0, 1]
        [] [(("Open", "AAPL"), [10, 11]), (("High", "AAPL"), [12, 13]),
            (("Low", "AAPL"), [9, 10]), (("Close", "AAPL"), [10, 12]),
            (("Volume", "AAPL"), [100, 200])])
      noDbFail [] ["AAPL", "MSFT"] "1y" "1d" "MSFT" rfl (by decide) (by decide)
      (by decide) (by decide)]
    decide⟩

/-! ## Shape lemmas for the per-symbol news loop (news_fetcher.py) -/

theorem newsStep_err (env : Env) (http : String → Nat → Except String (List NewsItem))
    (dbFail : String → Bool) (d : Nat) (acc : NewsDB × List (String × Nat))
    (a : String) (e : String) (h : fetch_company_news env http a d = .error e) :
    newsStep env http dbFail d acc a = (acc.1, setR acc.2 a 0) := by
  unfold newsStep
  rw [h]

theorem newsStep_ok_empty (env : Env) (http : String → Nat → Except String (List NewsItem))
    (dbFail : String → Bool) (d : Nat) (acc : NewsDB × List (String × Nat))
    (a : String) (items : List NewsItem) (h : fetch_company_news env http a d = .ok items)
    (hi : items.isEmpty = true) :
    newsStep env http dbFail d acc a = (acc.1, setR acc.2 a 0) := by
  unfold newsStep
  rw [h]
  show (if items.isEmpty = true then _ else _) = _
  rw [if_pos hi]

theorem newsStep_ok_fail (env : Env) (http : String → Nat → Except String (List NewsItem))
    (dbFail : String → Bool) (d : Nat) (acc : NewsDB × List (String × Nat))
    (a : String) (items : List NewsItem) (h : fetch_company_news env http a d = .ok items)
    (hi : items.isEmpty = false) (hf : dbFail a = true) :
    newsStep env http dbFail d acc a = (acc.1, setR acc.2 a 0) := by
  unfold newsStep
  rw [h]
  show (if items.isEmpty = true then _ else _) = _
  rw [if_neg (by simp [hi]), if_pos hf]

theorem newsStep_ok_store (env : Env) (http : String → Nat → Except String (List NewsItem))
    (dbFail : String → Bool) (d : Nat) (acc : NewsDB × List (String × Nat))
    (a : String) (items : List NewsItem) (h : fetch_company_news env http a d = .ok items)
    (hi : items.isEmpty = false) (hf : dbFail a = false) :
    newsStep env http dbFail d acc a =
      ((store_news acc.1 a items).1, setR acc.2 a (store_news acc.1 a items).2) := by
  unfold newsStep
  rw [h]
  show (if items.isEmpty = true then _ else _) = _
  rw [if_neg (by simp [hi]), if_neg (by simp [hf])]

theorem newsStep_res (env : Env) (http : String → Nat → Except String (List NewsItem))
    (dbFail : String → Bool) (d : Nat) (acc : NewsDB × List (String × Nat)) (a : String) :
    ∃ n, (newsStep env http dbFail d acc a).2 = setR acc.2 a n := by
  cases hfc : fetch_company_news env http a d with
  | error e => exact ⟨0, by rw [newsStep_err env http dbFail d acc a e hfc]⟩
  | ok items =>
    cases hi : items.isEmpty
    · cases hf : dbFail a
      · exact ⟨(store_news acc.1 a items).2,
          by rw [newsStep_ok_store env http dbFail d acc a items hfc hi hf]⟩
      · exact ⟨0, by rw [newsStep_ok_fail env http dbFail d acc a items hfc hi hf]⟩
    · exact ⟨0, by rw [newsStep_ok_empty env http dbFail d acc a items hfc hi]⟩

theorem newsRecordOf_symbol (a : String) (item : NewsItem) :
    (newsRecordOf a item).symbol = a := rfl

theorem newsStep_db_frame (env : Env) (http : String → Nat → Except String (List NewsItem))
    (dbFail : String → Bool) (d : Nat) (acc : NewsDB × List (String × Nat))
    (a t : String) (hta : t ≠ a) :
    (newsStep env http dbFail d acc a).1.filter (fun r => decide (r.symbol = t)) =
      acc.1.filter (fun r => decide (r.symbol = t)) := by
  cases hfc : fetch_company_news env http a d with
  | error e => rw [newsStep_err env http dbFail d acc a e hfc]
  | ok items =>
    cases hi : items.isEmpty
    · cases hf : dbFail a
      · rw [newsStep_ok_store env http dbFail d acc a items hfc hi hf]
        show ((store_news acc.1 a items).1).filter _ = _
        rw [store_news_of_ne acc.1 a items hi]
        apply filter_insertIgnoreAll_frame
        intro r hr
        rcases List.mem_map.mp hr with ⟨it, -, hrit⟩
        rw [← hrit]
        have hat : ¬ a = t := fun hc => hta hc.symm
        simp [newsRecordOf_symbol, hat]
      · rw [newsStep_ok_fail env http dbFail d acc a items hfc hi hf]
    · rw [newsStep_ok_empty env http dbFail d acc a items hfc hi]

theorem newsStep_zero (env : Env) (http : String → Nat → Except String (List NewsItem))
    (dbFail : String → Bool) (d : Nat) (acc : NewsDB × List (String × Nat)) (X : String)
    (hX : fetch_company_news env http X d = .ok [] ∨
      (∃ e, fetch_company_news env http X d = .error e) ∨ dbFail X = true) :
    (newsStep env http dbFail d acc X).2 = setR acc.2 X 0 := by
  rcases hX with h | ⟨e, h⟩ | h
  · rw [newsStep_ok_empty env http dbFail d acc X [] h rfl]
  · rw [newsStep_err env http dbFail d acc X e h]
  · cases hfc : fetch_company_news env http X d with
    | error e => rw [newsStep_err env http dbFail d acc X e hfc]
    | ok items =>
      cases hi : items.isEmpty
      · rw [newsStep_ok_fail env http dbFail d acc X items hfc hi h]
      · rw [newsStep_ok_empty env http dbFail d acc X items hfc hi]

theorem newsGo_lookupR_notmem (env : Env) (http : String → Nat → Except String (List NewsItem))
    (dbFail : String → Bool) (d : Nat) (t : String) :
    ∀ (symbols : List String) (acc : NewsDB × List (String × Nat)), t ∉ symbols →
      lookupR (newsGo env http dbFail d acc symbols).2 t = lookupR acc.2 t := by
  intro symbols
  induction symbols with
  | nil => intro acc _; rfl
  | cons a ss ih =>
    intro acc hmem
    have hta : t ≠ a := fun hc => hmem (hc ▸ List.mem_cons_self a ss)
    have hss : t ∉ ss := fun hc => hmem (List.mem_cons_of_mem a hc)
    rw [newsGo, ih _ hss]
    rcases newsStep_res env http dbFail d acc a with ⟨n, hn⟩
    rw [hn, lookupR_setR_ne hta]

theorem newsGo_mem_isSome (env : Env) (http : String → Nat → Except String (List NewsItem))
    (dbFail : String → Bool) (d : Nat) :
    ∀ (symbols : List String) (acc : NewsDB × List (String × Nat)), ∀ t ∈ symbols,
      (lookupR (newsGo env http dbFail d acc symbols).2 t).isSome = true := by
  intro symbols
  induction symbols with
  | nil => intro acc t hmem; exact absurd hmem (List.not_mem_nil t)
  | cons a ss ih =>
    intro acc t hmem
    by_cases hss : t ∈ ss
    · rw [newsGo]
      exact ih _ t hss
    · have hta : t = a := by
        rcases List.mem_cons.mp hmem with h | h
        · exact h
        · exact absurd h hss
      subst hta
      rw [newsGo, newsGo_lookupR_notmem env http dbFail d t ss _ hss]
      rcases newsStep_res env http dbFail d acc t with ⟨n, hn⟩
      rw [hn, lookupR_setR_self]
      rfl

theorem newsGo_zero (env : Env) (http : String → Nat → Except String (List NewsItem))
    (dbFail : String → Bool) (d : Nat) (X : String)
    (hX : fetch_company_news env http X d = .ok [] ∨
      (∃ e, fetch_company_news env http X d = .error e) ∨ dbFail X = true) :
    ∀ (symbols : List String) (acc : NewsDB × List (String × Nat)), X ∈ symbols →
      lookupR (newsGo env http dbFail d acc symbols).2 X = some 0 := by
  intro symbols
  induction symbols with
  | nil => intro acc hmem; exact absurd hmem (List.not_mem_nil X)
  | cons a ss ih =>
    intro acc hmem
    by_cases hss : X ∈ ss
    · rw [newsGo]
      exact ih _ hss
    · have hXa : X = a := by
        rcases List.mem_cons.mp hmem with h | h
        · exact h
        · exact absurd h hss
      subst hXa
      rw [newsGo, newsGo_lookupR_notmem env http dbFail d X ss _ hss,
        newsStep_zero env http dbFail d acc X hX, lookupR_setR_self]

/-! ## Isolation of one symbol's failure from its siblings -/

theorem store_news_filter_frame (db : NewsDB) (a u : String) (items : List NewsItem)
    (hi : items.isEmpty = false) (hu : u ≠ a) :
    (store_news db a items).1.filter (fun r => decide (r.symbol = u)) =
      db.filter (fun r => decide (r.symbol = u)) := by
  rw [store_news_of_ne db a items hi]
  apply filter_insertIgnoreAll_frame
  intro r hr
  rcases List.mem_map.mp hr with ⟨it, -, hrit⟩
  rw [← hrit]
  have hau : ¬ a = u := fun hc => hu hc.symm
  simp [newsRecordOf_symbol, hau]

theorem newsGo_isolated (env : Env)
    (http http' : String → Nat → Except String (List NewsItem))
    (dbF dbF' : String → Bool) (d : Nat) (X : String)
    (hhttp : ∀ s, s ≠ X → http s = http' s)
    (hdbf : ∀ s, s ≠ X → dbF s = dbF' s) :
    ∀ (symbols : List String) (acc₁ acc₂ : NewsDB × List (String × Nat)),
      (∀ t, t ≠ X → acc₁.1.filter (fun r => decide (r.symbol = t)) =
        acc₂.1.filter (fun r => decide (r.symbol = t))) →
      (∀ t, t ≠ X → lookupR acc₁.2 t = lookupR acc₂.2 t) →
      ∀ t, t ≠ X →
        lookupR (newsGo env http dbF d acc₁ symbols).2 t =
        lookupR (newsGo env http' dbF' d acc₂ symbols).2 t := by
  intro symbols
  induction symbols with
  | nil => intro acc₁ acc₂ _ hres t ht; exact hres t ht
  | cons a ss ih =>
    intro acc₁ acc₂ hdb hres t ht
    rw [newsGo, newsGo]
    by_cases haX : a = X
    · refine ih _ _ ?_ ?_ t ht
      · intro u hu
        have hua : u ≠ a := fun hc => hu (hc.trans haX)
        rw [newsStep_db_frame env http dbF d acc₁ a u hua,
          newsStep_db_frame env http' dbF' d acc₂ a u hua]
        exact hdb u hu
      · intro u hu
        have hua : u ≠ a := fun hc => hu (hc.trans haX)
        rcases newsStep_res env http dbF d acc₁ a with ⟨n₁, h₁⟩
        rcases newsStep_res env http' dbF' d acc₂ a with ⟨n₂, h₂⟩
        rw [h₁, h₂, lookupR_setR_ne hua, lookupR_setR_ne hua]
        exact hres u hu
    · have hfeq : fetch_company_news env http a d = fetch_company_news env http' a d := by
        unfold fetch_company_news
        rw [hhttp a haX]
      have hdfa : dbF a = dbF' a := hdbf a haX
      cases hfc : fetch_company_news env http a d with
      | error e =>
        have hfc' : fetch_company_news env http' a d = .error e := by
          rw [← hfeq]
          exact hfc
        rw [newsStep_err env http dbF d acc₁ a e hfc,
          newsStep_err env http' dbF' d acc₂ a e hfc']
        refine ih _ _ ?_ ?_ t ht
        · intro u hu
          exact hdb u hu
        · intro u hu
          show lookupR (setR acc₁.2 a 0) u = lookupR (setR acc₂.2 a 0) u
          by_cases hua : u = a
          · rw [hua, lookupR_setR_self, lookupR_setR_self]
          · rw [lookupR_setR_ne hua, lookupR_setR_ne hua]
            exact hres u hu
      | ok items =>
        have hfc' : fetch_company_news env http' a d = .ok items := by
          rw [← hfeq]
          exact hfc
        cases hi : items.isEmpty
        · cases hfa : dbF a
          · have hfa' : dbF' a = false := by
              rw [← hdfa]
              exact hfa
            rw [newsStep_ok_store env http dbF d acc₁ a items hfc hi hfa,
              newsStep_ok_store env http' dbF' d acc₂ a items hfc' hi hfa']
            have hkey : ∀ x y : NewsRec, newsKey x = newsKey y →
                (fun r : NewsRec => decide (r.symbol = a)) x =
                (fun r : NewsRec => decide (r.symbol = a)) y := by
              intro x y hxy
              have hs : x.symbol = y.symbol := congrArg (fun q => q.1) hxy
              simp [hs]
            have hrs : ∀ r ∈ items.map (newsRecordOf a),
                (fun r : NewsRec => decide (r.symbol = a)) r = true := by
              intro r hr
              rcases List.mem_map.mp hr with ⟨it, -, hrit⟩
              rw [← hrit]
              simp [newsRecordOf_symbol]
            have hcong := insertIgnoreAll_filter_congr newsKey _ hkey
              (items.map (newsRecordOf a)) hrs (hdb a haX)
            have hsn1 : store_news acc₁.1 a items =
                insertIgnoreAll newsKey acc₁.1 (items.map (newsRecordOf a)) :=
              store_news_of_ne acc₁.1 a items hi
            have hsn2 : store_news acc₂.1 a items =
                insertIgnoreAll newsKey acc₂.1 (items.map (newsRecordOf a)) :=
              store_news_of_ne acc₂.1 a items hi
            have hcnt : (store_news acc₁.1 a items).2 = (store_news acc₂.1 a items).2 := by
              rw [hsn1, hsn2]
              exact hcong.1
            refine ih _ _ ?_ ?_ t ht
            · intro u hu
              by_cases hua : u = a
              · subst hua
                show (store_news acc₁.1 u items).1.filter _ =
                  (store_news acc₂.1 u items).1.filter _
                rw [hsn1, hsn2]
                exact hcong.2
              · show (store_news acc₁.1 a items).1.filter _ =
                  (store_news acc₂.1 a items).1.filter _
                rw [store_news_filter_frame acc₁.1 a u items hi hua,
                  store_news_filter_frame acc₂.1 a u items hi hua]
                exact hdb u hu
            · intro u hu
              show lookupR (setR acc₁.2 a (store_news acc₁.1 a items).2) u =
                lookupR (setR acc₂.2 a (store_news acc₂.1 a items).2) u
              rw [hcnt]
              by_cases hua : u = a
              · rw [hua, lookupR_setR_self, lookupR_setR_self]
              · rw [lookupR_setR_ne hua, lookupR_setR_ne hua]
                exact hres u hu
          · have hfa' : dbF' a = true := by
              rw [← hdfa]
              exact hfa
            rw [newsStep_ok_fail env http dbF d acc₁ a items hfc hi hfa,
              newsStep_ok_fail env http' dbF' d acc₂ a items hfc' hi hfa']
            refine ih _ _ ?_ ?_ t ht
            · intro u hu
              exact hdb u hu
            · intro u hu
              show lookupR (setR acc₁.2 a 0) u = lookupR (setR acc₂.2 a 0) u
              by_cases hua : u = a
              · rw [hua, lookupR_setR_self, lookupR_setR_self]
              · rw [lookupR_setR_ne hua, lookupR_setR_ne hua]
                exact hres u hu
        · rw [newsStep_ok_empty env http dbF d acc₁ a items hfc hi,
            newsStep_ok_empty env http' dbF' d acc₂ a items hfc' hi]
          refine ih _ _ ?_ ?_ t ht
          · intro u hu
            exact hdb u hu
          · intro u hu
            show lookupR (setR acc₁.2 a 0) u = lookupR (setR acc₂.2 a 0) u
            by_cases hua : u = a
            · rw [hua, lookupR_setR_self, lookupR_setR_self]
            · rw [lookupR_setR_ne hua, lookupR_setR_ne hua]
              exact hres u hu

theorem pricesGo_isolated (data : DownloadResult) (pdbF pdbF' : String → Bool)
    (X : String) (hp : ∀ s, s ≠ X → pdbF s = pdbF' s) :
    ∀ (symbols : List String) (acc₁ acc₂ : PriceDB × List (String × Nat)),
      (∀ t, t ≠ X → lookupR acc₁.2 t = lookupR acc₂.2 t) →
      ∀ t, t ≠ X →
        lookupR (pricesGo data pdbF acc₁ symbols).2 t =
        lookupR (pricesGo data pdbF' acc₂ symbols).2 t := by
  intro symbols
  induction symbols with
  | nil => intro acc₁ acc₂ hres t ht; exact hres t ht
  | cons a ss ih =>
    intro acc₁ acc₂ hres t ht
    rw [pricesGo, pricesGo]
    refine ih _ _ ?_ t ht
    intro u hu
    by_cases haX : a = X
    · have hua : u ≠ a := fun hc => hu (hc.trans haX)
      rcases priceStep_res data pdbF acc₁ a with h₁ | ⟨n₁, h₁⟩ <;>
        rcases priceStep_res data pdbF' acc₂ a with h₂ | ⟨n₂, h₂⟩ <;>
        rw [h₁, h₂]
      · exact hres u hu
      · rw [lookupR_setR_ne hua]
        exact hres u hu
      · rw [lookupR_setR_ne hua]
        exact hres u hu
      · rw [lookupR_setR_ne hua, lookupR_setR_ne hua]
        exact hres u hu
    · have hfa : pdbF a = pdbF' a := hp a haX
      cases he : (extractSymbolDf data a).isEmpty
      · cases hf : pdbF a
        · have hf' : pdbF' a = false := by
            rw [← hfa]
            exact hf
          rw [priceStep_store data pdbF acc₁ a he hf,
            priceStep_store data pdbF' acc₂ a he hf']
          by_cases hua : u = a
          · rw [hua, lookupR_setR_self, lookupR_setR_self]
          · rw [lookupR_setR_ne hua, lookupR_setR_ne hua]
            exact hres u hu
        · have hf' : pdbF' a = true := by
            rw [← hfa]
            exact hf
          rw [priceStep_fail data pdbF acc₁ a he hf,
            priceStep_fail data pdbF' acc₂ a he hf']
          by_cases hua : u = a
          · rw [hua, lookupR_setR_self, lookupR_setR_self]
          · rw [lookupR_setR_ne hua, lookupR_setR_ne hua]
            exact hres u hu
      · rw [priceStep_empty data pdbF acc₁ a he, priceStep_empty data pdbF' acc₂ a he]
        exact hres u hu

theorem fetch_prices_multi_eq (dl : List String → String → String → Option DownloadResult)
    (data : DownloadResult) (dbFail : String → Bool) (db : PriceDB)
    (symbols : List String) (period interval : String)
    (hdl : dl symbols period interval = some data) (hlen : 2 ≤ symbols.length)
    (hne : data.isEmptyFor false = false) :
    fetch_and_store_prices dl dbFail db symbols period interval =
      pricesGo data dbFail (db, []) symbols := by
  have hnil : symbols.isEmpty = false := by
    cases symbols with
    | nil => simp at hlen
    | cons a ss => rfl
  have hone : (symbols.length == 1) = false := by
    have h : symbols.length ≠ 1 := by omega
    simpa using h
  unfold fetch_and_store_prices
  rw [hnil, hdl]
  show (if data.isEmptyFor (symbols.length == 1) = true then (db, [])
       else if (symbols.length == 1) = true then _
       else pricesGo data dbFail (db, []) symbols) = _
  rw [hone, hne]
  simp

theorem fetch_news_go_eq (env : Env) (http : String → Nat → Except String (List NewsItem))
    (dbF : String → Bool) (d : Nat) (db : NewsDB) (symbols : List String)
    (hnil : symbols.isEmpty = false) :
    fetch_and_store_news env http dbF d db symbols =
      newsGo env http dbF d (db, []) symbols := by
  unfold fetch_and_store_news
  rw [hnil]
  simp

/-- Claim C4 counterexample: in a single-symbol price ingestion cycle whose
store transaction raises, the error is caught but the symbol is NOT
recorded as zero rows — the outcome map comes back empty, with no entry
for the failed symbol (the claim requires `some 0`); no exception escapes. -/
theorem price_single_store_error_drops_entry :
    fetch_and_store_prices dlSingleW failDbW [] ["AAPL"] "1y" "1d" = ([], []) ∧
    lookupR (fetch_and_store_prices dlSingleW failDbW [] ["AAPL"] "1y" "1d").2 "AAPL"
      = none :=
  ⟨by decide, by decide⟩

/-- Claim C4 (amended): in the per-symbol loops named by the claim — the
news ingestion loop and the multi-symbol price decomposition — an error
during fetch or store for a symbol X is caught and recorded as zero rows
for X, every symbol of a news cycle receives an outcome entry, and the
outcomes of all other symbols are exactly what they would be under any
other behaviour of the oracles at X; but in the single-symbol price path
a store exception is caught by the cycle-level handler and yields an
empty outcome map (the symbol is omitted rather than recorded as zero). -/
theorem per_symbol_failure_isolated (env : Env)
    (http http' : String → Nat → Except String (List NewsItem))
    (dbF dbF' : String → Bool) (daysBack : Nat) (db : NewsDB)
    (dl : List String → String → String → Option DownloadResult)
    (data : DownloadResult) (pdbF pdbF' : String → Bool) (pdb : PriceDB)
    (symbols : List String) (X : String) (period interval : String)
    (hhttp : ∀ s, s ≠ X → http s = http' s)
    (hdbf : ∀ s, s ≠ X → dbF s = dbF' s)
    (hpdbf : ∀ s, s ≠ X → pdbF s = pdbF' s)
    (hdl : dl symbols period interval = some data)
    (hlen : 2 ≤ symbols.length)
    (hne : data.isEmptyFor false = false) :
    (∀ s ∈ symbols,
      (lookupR (fetch_and_store_news env http dbF daysBack db symbols).2 s).isSome = true) ∧
    (X ∈ symbols →
      (fetch_company_news env http X daysBack = .ok [] ∨
        (∃ e, fetch_company_news env http X daysBack = .error e) ∨ dbF X = true) →
      lookupR (fetch_and_store_news env http dbF daysBack db symbols).2 X = some 0) ∧
    (∀ s, s ≠ X →
      lookupR (fetch_and_store_news env http dbF daysBack db symbols).2 s =
      lookupR (fetch_and_store_news env http' dbF' daysBack db symbols).2 s) ∧
    (X ∈ symbols → (extractSymbolDf data X).isEmpty = false → pdbF X = true →
      symbols.Nodup →
      lookupR (fetch_and_store_prices dl pdbF pdb symbols period interval).2 X = some 0) ∧
    (∀ s, s ≠ X →
      lookupR (fetch_and_store_prices dl pdbF pdb symbols period interval).2 s =
      lookupR (fetch_and_store_prices dl pdbF' pdb symbols period interval).2 s) := by
  have hnil : symbols.isEmpty = false := by
    cases symbols with
    | nil => simp at hlen
    | cons a ss => rfl
  have hn1 := fetch_news_go_eq env http dbF daysBack db symbols hnil
  have hn2 := fetch_news_go_eq env http' dbF' daysBack db symbols hnil
  refine ⟨?_, ?_, ?_, ?_, ?_⟩
  · intro s hs
    rw [hn1]
    exact newsGo_mem_isSome env http dbF daysBack symbols (db, []) s hs
  · intro hmem hX
    rw [hn1]
    exact newsGo_zero env http dbF daysBack X hX symbols (db, []) hmem
  · intro s hs
    rw [hn1, hn2]
    exact newsGo_isolated env http http' dbF dbF' daysBack X hhttp hdbf symbols
      (db, []) (db, []) (fun u _ => rfl) (fun u _ => rfl) s hs
  · intro hmem hdf hfX hnd
    rw [fetch_prices_multi_eq dl data pdbF pdb symbols period interval hdl hlen hne,
      pricesGo_lookupR_mem data pdbF X symbols (pdb, []) hmem hnd rfl,
      if_neg (by simp [hdf]), if_pos hfX]
  · intro s hs
    rw [fetch_prices_multi_eq dl data pdbF pdb symbols period interval hdl hlen hne,
      fetch_prices_multi_eq dl data pdbF' pdb symbols period interval hdl hlen hne]
    exact pricesGo_isolated data pdbF pdbF' X hpdbf symbols (pdb, []) (pdb, [])
      (fun u _ => rfl) s hs

/-- Witness for the amended C4: MSFT's provider request raises (so its
fetch degrades to no items and a zero outcome) while AAPL's entry is the
same — and correct, non-zero — whether or not MSFT fails. -/
theorem per_symbol_failure_isolated_witness :
    (∀ s, s ≠ "MSFT" → httpErrW s = httpOkW s) ∧
    lookupR (fetch_and_store_news envW httpErrW noDbFail 7 [] ["AAPL", "MSFT"]).2 "MSFT"
      = some 0 ∧
    lookupR (fetch_and_store_news envW httpErrW noDbFail 7 [] ["AAPL", "MSFT"]).2 "AAPL" =
      lookupR (fetch_and_store_news envW httpOkW noDbFail 7 [] ["AAPL", "MSFT"]).2 "AAPL" ∧
    lookupR (fetch_and_store_news envW httpOkW noDbFail 7 [] ["AAPL", "MSFT"]).2 "AAPL"
      = some 1 := by
  have hhttp : ∀ s, s ≠ "MSFT" → httpErrW s = httpOkW s := by
    intro s hs
    funext d
    simp [httpErrW, httpOkW, hs]
  have hmain := per_symbol_failure_isolated envW httpErrW httpOkW noDbFail noDbFail 7 []
    dlW (DownloadResult.mk [0, 1]
      [] [(("Open", "AAPL"), [10, 11]), (("High", "AAPL"), [12, 13]),
          (("Low", "AAPL"), [9, 10]), (("Close", "AAPL"), [10, 12]),
          (("Volume", "AAPL"), [100, 200])])
    noDbFail noDbFail [] ["AAPL", "MSFT"] "MSFT" "1y" "1d"
    hhttp (fun _ _ => rfl) (fun _ _ => rfl) rfl (by decide) (by decide)
  refine ⟨hhttp, ?_, ?_, by decide⟩
  · exact hmain.2.1 (by decide) (Or.inl rfl)
  · exact hmain.2.2.1 "AAPL" (by decide)

end DataIngestion
